import Mathlib

/-!
Shallow embedding of `src/musicbox.js`: a text-driven step sequencer.

Modelling conventions:
* A JS string is modelled as a `List Char` when it is processed character by
  character (`Array.from`), and as a Lean `String` when it is only concatenated
  (sample paths, rendered HTML).  All characters appearing in the program are
  ASCII or `'·'`, for which `line.length` (UTF-16 units) coincides with the
  character count, and Lean's `Char.toLower`/`Char.toUpper` coincide with JS
  `toLowerCase`/`toUpperCase`.
* An audio buffer source is identified by the sample path it was loaded from
  (`SoundHandle`); `loadBuffer`/`createBufferSource` only wrap that resource.
* JS `null`/`undefined` results are modelled as `Option.none`.
* `counter % len` in JS evaluates to `NaN` when `len = 0`, and `a[NaN]` is
  `undefined`; `jsIndex` models this by returning `none` when `len = 0`.
-/

namespace Musicbox

/-- A handle to a loaded audio sample, identified by its sample path. -/
abbrev SoundHandle := String

/-- `crossProduct(a, b)` from the source:
`Array.from(b).flatMap(a_i => Array.from(a).map(b_i => b_i + a_i))`. -/
def crossProduct (a b : List Char) : List String :=
  b.flatMap (fun a_i => a.map (fun b_i => String.mk [b_i, a_i]))

/-- The `Piano` instrument.  The constructor takes the pitch alphabet and sets
`notes = crossProduct(notes, '345')` and the three fixed keyboard rows. -/
structure Piano where
  notes : List String
  lowOctave : List Char
  midOctave : List Char
  highOctave : List Char

/-- `new Piano(notes)`. -/
def Piano.make (notes : List Char) : Piano :=
  { notes := crossProduct notes "345".data
    lowOctave := "qwertyu".data
    midOctave := "asdfghj".data
    highOctave := "zxcvbnm".data }

/-- `Piano.loadNotes(ctx, volume, notes)`: each note resolves to the buffer
source loaded from `samples/piano/{volume}/{note}.mp3`. -/
def Piano.loadNotes (volume : String) (notes : List String) : List SoundHandle :=
  notes.map (fun note => "samples/piano/" ++ volume ++ "/" ++ note ++ ".mp3")

/-- `this.ff`, set by `Piano.init`. -/
def Piano.ff (p : Piano) : List SoundHandle := Piano.loadNotes "ff" p.notes

/-- `this.mf`, set by `Piano.init`. -/
def Piano.mf (p : Piano) : List SoundHandle := Piano.loadNotes "mf" p.notes

/-- `Piano.letterToIndex(letter)`. -/
def Piano.letterToIndex (p : Piano) (letter : Char) : Option Nat :=
  let letter := letter.toLower
  if p.lowOctave.contains letter then
    some (0 + p.lowOctave.indexOf letter)
  else if p.midOctave.contains letter then
    some (7 + p.midOctave.indexOf letter)
  else if p.highOctave.contains letter then
    some (14 + p.highOctave.indexOf letter)
  else
    none

/-- `Piano.getNote(letter)`. -/
def Piano.getNote (p : Piano) (letter : Char) : Option SoundHandle :=
  let isCaps := letter = letter.toUpper
  let notes := if isCaps then p.ff else p.mf
  match p.letterToIndex letter with
  | none => none
  | some idx => notes.get? idx

/-- The `Beats` instrument; `init` sets the alphabet and loads the beats. -/
structure Beats where
  alphabet : List Char

/-- `Beats.init` sets `this.alphabet = 'abcdefghijklmnopqrstuvwxyz'`. -/
def Beats.make : Beats :=
  { alphabet := "abcdefghijklmnopqrstuvwxyz".data }

/-- `loadBeats(ctx, letters)`: each letter resolves to the buffer source loaded
from `samples/beats/{beat}.mp3`. -/
def Beats.beats (b : Beats) : List SoundHandle :=
  b.alphabet.map (fun beat => "samples/beats/" ++ String.mk [beat] ++ ".mp3")

/-- `Beats.getBeat(letter)`: `idx = alphabet.indexOf(letter.toLowerCase());
return idx >= 0 ? beats[idx] : null`. -/
def Beats.getBeat (b : Beats) (letter : Char) : Option SoundHandle :=
  if b.alphabet.contains letter.toLower then
    b.beats.get? (b.alphabet.indexOf letter.toLower)
  else
    none

/-- The two instrument variants handed to `Sequencer`. -/
inductive Instrument where
  | piano (p : Piano)
  | beats (b : Beats)

/-- `instrument.parseLine(line)`:
`Array.from(line).map(letter => this.getNote/getBeat(letter))`. -/
def Instrument.parseLine : Instrument → List Char → List (Option SoundHandle)
  | .piano p, line => line.map p.getNote
  | .beats b, line => line.map b.getBeat

/-- JS `String.prototype.split('\n')` on a character list:
`"".split` gives `[""]`, and a trailing newline yields a trailing `""`. -/
def splitLines : List Char → List (List Char)
  | [] => [[]]
  | c :: rest =>
    if c = '\n' then [] :: splitLines rest
    else (c :: (splitLines rest).headI) :: (splitLines rest).tail

/-- The sequencer state: `constructor(instrument)` sets `sequences = []`,
`input = ""`, `idx = 0`. -/
structure Sequencer where
  instrument : Instrument
  sequences : List (List (Option SoundHandle))
  input : List Char
  idx : Nat

/-- `new Sequencer(instrument)`. -/
def Sequencer.make (instrument : Instrument) : Sequencer :=
  { instrument := instrument, sequences := [], input := [], idx := 0 }

/-- `Sequencer.length()`:
`this.sequences.map(a => a.length).reduce((a, b) => Math.max(a, b), 0)`. -/
def Sequencer.length (s : Sequencer) : Nat :=
  (s.sequences.map List.length).foldl max 0

/-- JS `counter % len`, as used to index an array: when `len = 0` the modulo is
`NaN` and indexing with it yields `undefined`, modelled as `none`. -/
def jsIndex (counter len : Nat) : Option Nat :=
  if len = 0 then none else some (counter % len)

/-- The per-line body of `Sequencer.step`: pick the active index for sequence
`a`, read `a[idx]` (which may be `undefined` past the end, or `null` for an
unmapped character); the step fires exactly the non-null, non-undefined
results. -/
def lineFire (counter longest : Nat) (syncSequences : Bool)
    (a : List (Option SoundHandle)) : Option SoundHandle :=
  match (if syncSequences then jsIndex counter longest
         else jsIndex counter a.length) with
  | none => none
  | some idx => (a.get? idx).join

/-- `Sequencer.step(syncSequences)`: returns the fired handles (the buffers
passed to `createBufferSource(..).start()`, in sequence order) together with
the updated state.  When `length() === 0` the method returns early, before
`this.idx++`. -/
def Sequencer.step (s : Sequencer) (syncSequences : Bool) :
    List SoundHandle × Sequencer :=
  let longestLength := s.length
  if longestLength = 0 then
    ([], s)
  else
    (s.sequences.filterMap (lineFire s.idx longestLength syncSequences),
     { s with idx := s.idx + 1 })

/-- `Sequencer.update(input)`. -/
def Sequencer.update (s : Sequencer) (input : List Char) : Sequencer :=
  { s with
    input := input
    sequences := (splitLines input).map s.instrument.parseLine }

/-- The displayed glyph of a character: `if (letter === ' ') letter = '·'`. -/
def renderGlyph (letter : Char) : Char :=
  if letter = ' ' then '·' else letter

/-- One `<span>` cell of `Sequencer.render`: `classes` is `['active']` joined
to `"active"` when `i === idx`, else the empty join. -/
def renderCell (idx : Option Nat) (i : Nat) (letter : Char) : String :=
  let classes := if some i = idx then "active" else ""
  "<span class=" ++ classes ++ ">" ++ String.mk [renderGlyph letter] ++ "</span>"

/-- The active index `render`/`step` use for one line: `this.idx` modulo the
longest length (sync mode) or the line's own length (independent mode). -/
def activeIdx (s : Sequencer) (syncSequences : Bool) (line : List Char) :
    Option Nat :=
  if syncSequences then jsIndex s.idx s.length
  else jsIndex s.idx line.length

/-- `Sequencer.render(syncSequences)`: the HTML string built from
`this.input.split('\n')`, one `<p>` per line, one `<span>` per character. -/
def Sequencer.render (s : Sequencer) (syncSequences : Bool) : String :=
  String.join ((splitLines s.input).map (fun line =>
    "<p class=\"line\">" ++
      String.join (line.enum.map (fun p =>
        renderCell (activeIdx s syncSequences line) p.1 p.2)) ++
      "</p>"))

/-- `render` assigns no field of `this`; its effect on the sequencer state is
the identity, which this wrapper makes explicit by returning the state a
caller observes after the call. -/
def Sequencer.renderCall (s : Sequencer) (syncSequences : Bool) :
    String × Sequencer :=
  (s.render syncSequences, s)

/-- Structured view of `render`: for every line the list of
(displayed glyph, `isActive`) pairs that the HTML serialises. -/
def renderLineModel (idx : Option Nat) (line : List Char) :
    List (Char × Bool) :=
  line.enum.map (fun p => (renderGlyph p.2, decide (some p.1 = idx)))

/-- Structured view of `Sequencer.render`, line by line. -/
def Sequencer.renderModel (s : Sequencer) (syncSequences : Bool) :
    List (List (Char × Bool)) :=
  (splitLines s.input).map (fun line =>
    renderLineModel (activeIdx s syncSequences line) line)

/-- Serialisation of one structured cell back to its `<span>`. -/
def cellHtml (c : Char × Bool) : String :=
  "<span class=" ++ (if c.2 then "active" else "") ++ ">" ++
    String.mk [c.1] ++ "</span>"

/-- Serialisation of the structured render model to the HTML string. -/
def modelHtml (model : List (List (Char × Bool))) : String :=
  String.join (model.map (fun cl =>
    "<p class=\"line\">" ++ String.join (cl.map cellHtml) ++ "</p>"))

/-- `render` is exactly the serialisation of `renderModel`: the structured
view loses no information about glyphs or `active` marks. -/
theorem render_eq_modelHtml (s : Sequencer) (m : Bool) :
    s.render m = modelHtml (s.renderModel m) := by
  unfold Sequencer.render modelHtml Sequencer.renderModel
  rw [List.map_map]
  refine congrArg String.join (List.map_congr_left (fun line _ => ?_))
  simp only [Function.comp, renderLineModel, List.map_map]
  refine congrArg (fun x => "<p class=\"line\">" ++ String.join x ++ "</p>")
    (List.map_congr_left (fun p _ => ?_))
  simp only [Function.comp, renderCell, cellHtml]
  by_cases h : some p.1 = activeIdx s m line <;> simp [h]

/-! Concrete instances used by counterexamples and witnesses. -/

/-- The piano created at page load: `new Piano('CDEFGAB')`. -/
def thePiano : Piano := Piano.make "CDEFGAB".data

/-- The beats instrument after `init`. -/
def theBeats : Beats := Beats.make

/-- A sequencer whose track was updated to the empty text: one line of
length 0. -/
def emptySeq : Sequencer := (Sequencer.make (.beats theBeats)).update []

/-- A sequencer over the two-line body `"abc\nabcde"` (lengths 3 and 5). -/
def demoSeq : Sequencer :=
  (Sequencer.make (.beats theBeats)).update "abc\nabcde".data

/-- `demoSeq` after three ticks in sync mode: its step counter is 3. -/
def demoSeq3 : Sequencer := (((demoSeq.step true).2.step true).2.step true).2

/-- A sequencer over `"a\n\nb"`: a zero-length line between non-empty ones. -/
def mixedSeq : Sequencer :=
  (Sequencer.make (.beats theBeats)).update "a\n\nb".data

/-! Helper lemmas. -/

lemma foldl_max_eq_zero_iff (l : List Nat) (n : Nat) :
    l.foldl max n = 0 ↔ n = 0 ∧ ∀ x ∈ l, x = 0 := by
  induction l generalizing n with
  | nil => simp
  | cons a l ih =>
    rw [List.foldl_cons, ih]
    simp only [Nat.max_eq_zero_iff, List.mem_cons]
    constructor
    · rintro ⟨⟨hn, ha⟩, hl⟩
      exact ⟨hn, fun x hx => hx.elim (fun h => h ▸ ha) (hl x)⟩
    · rintro ⟨hn, hl⟩
      exact ⟨⟨hn, hl a (Or.inl rfl)⟩, fun x hx => hl x (Or.inr hx)⟩

/-- `Sequencer.length()` is zero exactly when every sequence is empty. -/
lemma Sequencer.length_eq_zero_iff (s : Sequencer) :
    s.length = 0 ↔ ∀ a ∈ s.sequences, a.length = 0 := by
  unfold Sequencer.length
  rw [foldl_max_eq_zero_iff]
  simp

/-- A zero-length sequence never fires: `a[idx]` is `undefined` whether the
index is a number (sync mode) or `NaN` (independent mode, modulo by 0). -/
lemma lineFire_nil (counter longest : Nat) (m : Bool) :
    lineFire counter longest m [] = none := by
  unfold lineFire jsIndex
  cases m <;> simp
  split <;> simp

/-- With a nonzero longest length, the per-line firing of `step` is: nothing
for a zero-length line, otherwise the entry at the mode's active index. -/
lemma lineFire_eq_of_longest_ne (counter longest : Nat) (m : Bool)
    (a : List (Option SoundHandle)) (h : longest ≠ 0) :
    lineFire counter longest m a =
      if 0 < a.length then
        (a.get? (if m then counter % longest else counter % a.length)).join
      else none := by
  unfold lineFire jsIndex
  cases a with
  | nil => cases m <;> simp [h]
  | cons x xs => cases m <;> simp [h]

/-! Claim theorems. -/

/-- Claim C1, counterexample: with the empty text (a single line of length 0)
the step counter is NOT incremented by `step`: the method returns before
`this.idx++` when `length()` is 0, so the claimed post-state `idx + 1` fails
at this concrete input. -/
theorem step_empty_no_increment_cex :
    ¬ ((emptySeq.step true).1 = [] ∧
        (emptySeq.step true).2.idx = emptySeq.idx + 1) := by
  decide

/-- Claim C1 (amended): when the track has zero lines or every line has
length 0, `step` returns no sound-handles and leaves the whole sequencer
state — in particular the step counter — unchanged: it returns early,
before the counter increment. -/
theorem step_empty_returns_early (s : Sequencer) (m : Bool)
    (h : ∀ a ∈ s.sequences, a.length = 0) :
    s.step m = ([], s) := by
  simp only [Sequencer.step]
  rw [if_pos (s.length_eq_zero_iff.mpr h)]

theorem step_empty_returns_early_witness :
    (∀ a ∈ emptySeq.sequences, a.length = 0) ∧
      emptySeq.step true = ([], emptySeq) :=
  ⟨by decide, step_empty_returns_early emptySeq true (by decide)⟩

/-- Claim C2: when some line is non-empty, a tick fires, line by line, the
present handle at the active index — `idx % longestLength` in sync mode,
`idx % a.length` for each non-empty line in independent mode, nothing for a
zero-length line or a missing/absent entry — and increments the step counter
by exactly 1. -/
theorem step_active_index (s : Sequencer) (m : Bool) (h : 0 < s.length) :
    (s.step m).1 = s.sequences.filterMap (fun a =>
        if 0 < a.length then
          (a.get? (if m then s.idx % s.length else s.idx % a.length)).join
        else none)
    ∧ (s.step m).2.idx = s.idx + 1 := by
  have h0 : s.length ≠ 0 := Nat.pos_iff_ne_zero.mp h
  constructor
  · simp only [Sequencer.step, if_neg h0]
    exact List.filterMap_congr
      (fun a _ => lineFire_eq_of_longest_ne s.idx s.length m a h0)
  · simp only [Sequencer.step, if_neg h0]

theorem step_active_index_witness :
    0 < demoSeq.length ∧
      ((demoSeq.step true).1 = demoSeq.sequences.filterMap (fun a =>
          if 0 < a.length then
            (a.get? (if true then demoSeq.idx % demoSeq.length
                     else demoSeq.idx % a.length)).join
          else none)
        ∧ (demoSeq.step true).2.idx = demoSeq.idx + 1) :=
  ⟨by decide, step_active_index demoSeq true (by decide)⟩

lemma enum_eq_enumFrom (l : List α) : l.enum = l.enumFrom 0 := rfl

lemma countP_active_enumFrom (line : List Char) (j n : Nat) :
    ((line.enumFrom n).map
        (fun p => (renderGlyph p.2, decide (some p.1 = some j)))).countP
        (fun c => c.2)
      = if n ≤ j ∧ j < n + line.length then 1 else 0 := by
  induction line generalizing n with
  | nil =>
    simp only [List.enumFrom, List.map_nil, List.countP_nil, List.length_nil]
    split <;> omega
  | cons a l ih =>
    simp only [List.enumFrom, List.map_cons, List.countP_cons, List.length_cons]
    rw [ih (n + 1)]
    simp only [Option.some.injEq, decide_eq_true_eq]
    split_ifs <;> omega

/-- The number of `active` cells of one rendered line: 1 when the active
index is a number within the line, 0 otherwise. -/
lemma countP_renderLineModel (idx : Option Nat) (line : List Char) :
    (renderLineModel idx line).countP (fun c => c.2) =
      match idx with
      | none => 0
      | some j => if j < line.length then 1 else 0 := by
  cases idx with
  | none =>
    simp only [renderLineModel]
    rw [List.countP_eq_zero]
    intro c hc
    simp only [List.mem_map] at hc
    obtain ⟨p, _, rfl⟩ := hc
    simp
  | some j =>
    simp only [renderLineModel, enum_eq_enumFrom, countP_active_enumFrom]
    simp

lemma renderLineModel_length (idx : Option Nat) (line : List Char) :
    (renderLineModel idx line).length = line.length := by
  simp [renderLineModel]

/-- Claim C3, counterexample: over `"abc\nabcde"` with step counter 3 in
sync mode, the shared active index is `3 % 5 = 3`, which is past the end of
the first (non-empty) line, so `render` marks NO character of that line
active — not "exactly one per non-empty line". -/
theorem render_one_active_cex :
    ¬ (∀ cl ∈ demoSeq3.renderModel true, cl ≠ [] →
        cl.countP (fun c => c.2) = 1) := by
  decide

/-- Claim C3 (amended): `render` uses the current, not-yet-advanced step
counter and the same index-selection rule as `tick`, and marks at most one
character per line active; a line has exactly one active character whenever
its active index falls inside the line — always the case for a non-empty
line in independent mode — and no active character when the line is shorter
than the (sync-mode, shared) active index. -/
theorem render_active_count (s : Sequencer) (m : Bool) (li : Nat)
    (line : List Char) (h : (splitLines s.input).get? li = some line) :
    ∃ cl, (s.renderModel m).get? li = some cl ∧
      cl.countP (fun c => c.2) ≤ 1 ∧
      (∀ j, activeIdx s m line = some j →
        cl.countP (fun c => c.2) = if j < line.length then 1 else 0) ∧
      (m = false → line ≠ [] → cl.countP (fun c => c.2) = 1) := by
  refine ⟨renderLineModel (activeIdx s m line) line, ?_, ?_, ?_, ?_⟩
  · rw [List.get?_eq_getElem?] at h
    simp only [Sequencer.renderModel, List.get?_eq_getElem?, List.getElem?_map,
      h, Option.map_some']
  · rw [countP_renderLineModel]
    cases activeIdx s m line with
    | none => simp
    | some j => simp only; split <;> simp
  · intro j hj
    rw [countP_renderLineModel, hj]
  · intro hm hne
    have hlen : line.length ≠ 0 := fun h0 => hne (List.length_eq_zero.mp h0)
    have hidx : activeIdx s m line = some (s.idx % line.length) := by
      simp [activeIdx, hm, jsIndex, hlen]
    rw [countP_renderLineModel, hidx]
    simp only
    exact if_pos (Nat.mod_lt _ (Nat.pos_of_ne_zero hlen))

theorem render_active_count_witness :
    ((splitLines demoSeq3.input).get? 0 = some "abc".data) ∧
      (∃ cl, (demoSeq3.renderModel true).get? 0 = some cl ∧
        cl.countP (fun c => c.2) ≤ 1 ∧
        (∀ j, activeIdx demoSeq3 true "abc".data = some j →
          cl.countP (fun c => c.2) =
            if j < ("abc".data : List Char).length then 1 else 0) ∧
        (true = false → ("abc".data : List Char) ≠ [] →
          cl.countP (fun c => c.2) = 1)) :=
  ⟨by decide, render_active_count demoSeq3 true 0 "abc".data (by decide)⟩

/-- Claim C4: `render` assigns no sequencer field, so the state a caller
sees after the call is the state before it — in particular the step counter
and the stored text — and a second `render` with the same mode and no
intervening `tick`/`update` returns a byte-identical string. -/
theorem render_idempotent (s : Sequencer) (m : Bool) :
    (s.renderCall m).2 = s ∧
      (s.renderCall m).2.idx = s.idx ∧
      (s.renderCall m).2.input = s.input ∧
      ((s.renderCall m).2.renderCall m).1 = (s.renderCall m).1 :=
  ⟨rfl, rfl, rfl, rfl⟩

lemma pitched_rows_key :
    ∀ c ∈ thePiano.lowOctave ++ thePiano.midOctave ++ thePiano.highOctave,
      thePiano.letterToIndex c.toUpper = thePiano.letterToIndex c ∧
      thePiano.letterToIndex c ≠ none ∧
      thePiano.getNote c = (thePiano.letterToIndex c).bind thePiano.mf.get? ∧
      thePiano.getNote c.toUpper =
        (thePiano.letterToIndex c).bind thePiano.ff.get? ∧
      thePiano.getNote c ≠ thePiano.getNote c.toUpper := by
  decide

/-- Claim C5: a character of the three keyboard rows (all lowercase keys)
maps to the mezzoforte handle at its keyboard index, and its uppercase form
maps to the forte handle at the same index; the two handles differ. -/
theorem pitched_case_velocity (c : Char)
    (h : c ∈ thePiano.lowOctave ∨ c ∈ thePiano.midOctave ∨
         c ∈ thePiano.highOctave) :
    thePiano.letterToIndex c.toUpper = thePiano.letterToIndex c ∧
    thePiano.letterToIndex c ≠ none ∧
    thePiano.getNote c = (thePiano.letterToIndex c).bind thePiano.mf.get? ∧
    thePiano.getNote c.toUpper =
      (thePiano.letterToIndex c).bind thePiano.ff.get? ∧
    thePiano.getNote c ≠ thePiano.getNote c.toUpper :=
  pitched_rows_key c (by
    rcases h with h | h | h <;> simp [List.mem_append, h])

theorem pitched_case_velocity_witness :
    ('q' ∈ thePiano.lowOctave ∨ 'q' ∈ thePiano.midOctave ∨
       'q' ∈ thePiano.highOctave) ∧
      (thePiano.letterToIndex 'q'.toUpper = thePiano.letterToIndex 'q' ∧
        thePiano.letterToIndex 'q' ≠ none ∧
        thePiano.getNote 'q' =
          (thePiano.letterToIndex 'q').bind thePiano.mf.get? ∧
        thePiano.getNote 'q'.toUpper =
          (thePiano.letterToIndex 'q').bind thePiano.ff.get? ∧
        thePiano.getNote 'q' ≠ thePiano.getNote 'q'.toUpper) :=
  ⟨Or.inl (by decide), pitched_case_velocity 'q' (Or.inl (by decide))⟩

/-- The physical keyboard rows, lowest octave first, as indexed by the
`7*row + position` rule of `Piano.letterToIndex`. -/
def pianoRow : Fin 3 → List Char
  | 0 => thePiano.lowOctave
  | 1 => thePiano.midOctave
  | 2 => thePiano.highOctave

/-- Claim C6: with pitch alphabet `"CDEFGAB"`, the flattened note table has
21 entries in octave-major, pitch-minor order — entry 0 is C3, entry 6 is
B3, entry 7 is C4, entry 20 is B5, and entry `7*r + p` pairs the `p`-th
pitch with octave `3 + r` — and the keyboard key at row `r`, position `p`
is looked up at exactly that index `7*r + p`. -/
theorem notekey_ordering :
    thePiano.notes.length = 21 ∧
    thePiano.notes.get? 0 = some "C3" ∧
    thePiano.notes.get? 6 = some "B3" ∧
    thePiano.notes.get? 7 = some "C4" ∧
    thePiano.notes.get? 20 = some "B5" ∧
    (∀ r : Fin 3, ∀ p : Fin 7,
      thePiano.notes.get? (7 * r.val + p.val) =
        some (String.mk ["CDEFGAB".data.getD p.val ' ',
                         "345".data.getD r.val ' '])) ∧
    (∀ r : Fin 3, ∀ p : Fin 7,
      thePiano.letterToIndex ((pianoRow r).getD p.val ' ') =
        some (7 * r.val + p.val)) := by
  decide

/-- Claim C7: every character whose lowercase form is in none of the three
keyboard rows maps to no note, and — independently — every character whose
lowercase form is not in the percussion alphabet maps to no beat; both
silently, as `none`, never as an error. -/
theorem unmapped_char_rest :
    (∀ c : Char, c.toLower ∉ thePiano.lowOctave →
      c.toLower ∉ thePiano.midOctave → c.toLower ∉ thePiano.highOctave →
      thePiano.getNote c = none) ∧
    (∀ c : Char, c.toLower ∉ theBeats.alphabet →
      theBeats.getBeat c = none) := by
  constructor
  · intro c h1 h2 h3
    have hidx : thePiano.letterToIndex c = none := by
      unfold Piano.letterToIndex
      rw [if_neg (by simpa using h1), if_neg (by simpa using h2),
        if_neg (by simpa using h3)]
    simp [Piano.getNote, hidx]
  · intro c hb
    unfold Beats.getBeat
    rw [if_neg (by simpa using hb)]

theorem unmapped_char_rest_witness :
    (('i' : Char).toLower ∉ thePiano.lowOctave ∧
        ('i' : Char).toLower ∉ thePiano.midOctave ∧
        ('i' : Char).toLower ∉ thePiano.highOctave ∧
        thePiano.getNote 'i' = none) ∧
      (('1' : Char).toLower ∉ theBeats.alphabet ∧
        theBeats.getBeat '1' = none) :=
  ⟨⟨by decide, by decide, by decide,
    unmapped_char_rest.1 'i' (by decide) (by decide) (by decide)⟩,
   by decide, unmapped_char_rest.2 '1' (by decide)⟩

/-- The document state `loadHash`/`setHash` read and write: the two text
areas and the sync checkbox. -/
structure PageState where
  pianoText : String
  beatsText : String
  syncSequences : Bool
deriving DecidableEq

/-- `loadHash()`.  `decodeState` stands for the composition of the browser
builtins `atob` and `JSON.parse` together with the `.piano`/`.beats`/
`.syncSequences` field reads (external collaborators not defined in this
repository); a payload on which decoding or parsing throws is `none`, the
case the `catch` block handles.  The result pairs the page state after the
call with the console messages logged; the JS message also appends the
exception text, which the model leaves out. -/
def loadHash (decodeState : String → Option (String × String × Bool))
    (hash : String) (st : PageState) : PageState × List String :=
  if hash.length > 0 then
    match decodeState (hash.drop 1) with
    | some (p, b, sync) =>
      ({ pianoText := p, beatsText := b, syncSequences := sync }, [])
    | none => (st, ["invalid sequence " ++ hash.drop 1])
  else (st, [])

/-- Claim C8: when the persisted payload fails to decode, `loadHash` leaves
the text areas and the sync flag exactly as they were, and (when a payload
was present at all) reports the failure on the console; no exception
escapes — the function is total. -/
theorem loadHash_malformed (decodeState : String → Option (String × String × Bool))
    (hash : String) (st : PageState)
    (h : decodeState (hash.drop 1) = none) :
    (loadHash decodeState hash st).1 = st ∧
      (0 < hash.length → (loadHash decodeState hash st).2 ≠ []) := by
  unfold loadHash
  split_ifs with hl
  · rw [h]
    exact ⟨rfl, fun _ => by simp⟩
  · exact ⟨rfl, fun hpos => absurd hpos hl⟩

theorem loadHash_malformed_witness :
    ((fun _ => (none : Option (String × String × Bool))) ("#garbage!!".drop 1)
        = none) ∧
      ((loadHash (fun _ => none) "#garbage!!"
          ⟨"abc", "xyz", false⟩).1 = ⟨"abc", "xyz", false⟩ ∧
        (0 < ("#garbage!!" : String).length →
          (loadHash (fun _ => none) "#garbage!!"
            ⟨"abc", "xyz", false⟩).2 ≠ [])) :=
  ⟨rfl, loadHash_malformed (fun _ => none) "#garbage!!" ⟨"abc", "xyz", false⟩ rfl⟩

lemma filterMap_lineFire_filter (l : List (List (Option SoundHandle)))
    (counter longest : Nat) (m : Bool) :
    l.filterMap (lineFire counter longest m) =
      (l.filter (fun a => !a.isEmpty)).filterMap
        (lineFire counter longest m) := by
  induction l with
  | nil => rfl
  | cons a l ih =>
    cases a with
    | nil => simp [List.filterMap_cons, lineFire_nil, List.filter_cons, ih]
    | cons x xs => simp [List.filterMap_cons, List.filter_cons, ih]

/-- Claim C9: `step` fires exactly what the non-empty lines fire — removing
the zero-length lines changes nothing, the guarded per-line modulo never
selects an index for them — and a zero-length input line renders as an
empty cell sequence, hence with no active character; both functions are
total, so no error occurs. -/
theorem zero_length_lines_inert (s : Sequencer) (m : Bool) :
    (s.step m).1 =
      (s.sequences.filter (fun a => !a.isEmpty)).filterMap
        (lineFire s.idx s.length m) ∧
    ∀ li, (splitLines s.input).get? li = some [] →
      (s.renderModel m).get? li = some [] := by
  constructor
  · by_cases h : s.length = 0
    · have hall := s.length_eq_zero_iff.mp h
      have hfil : s.sequences.filter (fun a => !a.isEmpty) = [] := by
        rw [List.filter_eq_nil_iff]
        intro a ha
        simp [List.isEmpty_iff, List.length_eq_zero.mp (hall a ha)]
      simp only [Sequencer.step, if_pos h, hfil, List.filterMap_nil]
    · simp only [Sequencer.step, if_neg h]
      exact filterMap_lineFire_filter s.sequences s.idx s.length m
  · intro li hli
    rw [List.get?_eq_getElem?] at hli
    simp only [Sequencer.renderModel, List.get?_eq_getElem?, List.getElem?_map,
      hli, Option.map_some']
    simp [renderLineModel]

theorem zero_length_lines_inert_witness :
    ((mixedSeq.step true).1 =
        (mixedSeq.sequences.filter (fun a => !a.isEmpty)).filterMap
          (lineFire mixedSeq.idx mixedSeq.length true)) ∧
      (splitLines mixedSeq.input).get? 1 = some [] ∧
      (mixedSeq.renderModel true).get? 1 = some [] :=
  ⟨(zero_length_lines_inert mixedSeq true).1, by decide,
   (zero_length_lines_inert mixedSeq true).2 1 (by decide)⟩

lemma splitLines_ne_nil (l : List Char) : splitLines l ≠ [] := by
  cases l with
  | nil => simp [splitLines]
  | cons c rest =>
    simp only [splitLines]
    split <;> simp

lemma renderGlyph_ne_newline (c : Char) (h : c ≠ '\n') :
    renderGlyph c ≠ '\n' := by
  unfold renderGlyph
  split <;> simp_all

lemma splitLines_map_renderGlyph (l : List Char) :
    splitLines (l.map renderGlyph) =
      (splitLines l).map (List.map renderGlyph) := by
  induction l with
  | nil => rfl
  | cons c rest ih =>
    by_cases h : c = '\n'
    · subst h
      have : renderGlyph '\n' = '\n' := by decide
      simp [splitLines, this, ih]
    · simp only [List.map_cons, splitLines,
        if_neg (renderGlyph_ne_newline c h), if_neg h, ih]
      cases hsp : splitLines rest with
      | nil => exact absurd hsp (splitLines_ne_nil rest)
      | cons hd tl => simp

lemma enumFrom_map_snd (l : List α) (n : Nat) :
    (l.enumFrom n).map Prod.snd = l := by
  induction l generalizing n with
  | nil => rfl
  | cons a l ih => simp [List.enumFrom, ih]

lemma renderLineModel_map_fst (idx : Option Nat) (line : List Char) :
    (renderLineModel idx line).map Prod.fst = line.map renderGlyph := by
  unfold renderLineModel
  rw [List.map_map]
  have : (Prod.fst ∘ fun p : Nat × Char =>
      (renderGlyph p.2, decide (some p.1 = idx))) =
      (renderGlyph ∘ Prod.snd) := rfl
  rw [this, ← List.map_map, enum_eq_enumFrom, enumFrom_map_snd]

lemma renderGlyph_idem (c : Char) :
    renderGlyph (renderGlyph c) = renderGlyph c := by
  by_cases h : c = ' ' <;> simp [renderGlyph, h]

lemma enumFrom_map (l : List α) (f : α → β) (n : Nat) :
    (l.map f).enumFrom n = (l.enumFrom n).map (fun p => (p.1, f p.2)) := by
  induction l generalizing n with
  | nil => rfl
  | cons a l ih => simp [List.enumFrom, ih]

lemma renderLineModel_map_renderGlyph (idx : Option Nat) (line : List Char) :
    renderLineModel idx (line.map renderGlyph) = renderLineModel idx line := by
  unfold renderLineModel
  rw [enum_eq_enumFrom, enum_eq_enumFrom, enumFrom_map, List.map_map]
  exact List.map_congr_left (fun p _ => by simp [renderGlyph_idem])

/-- Claim C10: the glyph of every rendered cell is the cell's input
character with spaces replaced by `'·'`, and — the substitution happening
after the `isActive` decision — pre-substituting the whole input changes
nothing in the rendered output, in particular not which character is
active. -/
theorem space_placeholder (s : Sequencer) (m : Bool) :
    (s.renderModel m).map (List.map Prod.fst) =
        (splitLines s.input).map (List.map renderGlyph) ∧
      ({ s with input := s.input.map renderGlyph } : Sequencer).render m
        = s.render m := by
  constructor
  · unfold Sequencer.renderModel
    rw [List.map_map]
    exact List.map_congr_left (fun line _ => renderLineModel_map_fst _ _)
  · rw [render_eq_modelHtml, render_eq_modelHtml]
    refine congrArg modelHtml ?_
    unfold Sequencer.renderModel
    show (splitLines (s.input.map renderGlyph)).map _ = _
    rw [splitLines_map_renderGlyph, List.map_map]
    refine List.map_congr_left (fun line _ => ?_)
    have hidx : activeIdx { s with input := s.input.map renderGlyph } m
        (line.map renderGlyph) = activeIdx s m line := by
      simp [activeIdx, Sequencer.length]
    show renderLineModel _ (line.map renderGlyph) = _
    rw [hidx, renderLineModel_map_renderGlyph]

end Musicbox
